import Mathlib

/-!
Verification of the churn-prediction pipeline.

Shallow embedding of the repository's feature-engineering and serving
logic:

* `src/inference.py` — `_prep` (record normalization against the feature
  contract) and `predict` (probability + thresholded decision);
* `src/app.py` — the input-consistency auto-fix block (lines 78-101);
* `src/processing.py` — `main`'s required-column validation, date-quality
  check, and time-based train/validation/test split (the cut points
  `int(n * 0.70)` and `int(n * 0.85)` are computed in IEEE binary64
  arithmetic, modelled here by exact round-to-nearest-even rounding on
  `ℚ`).

Python dicts are modelled as association lists `List (String × Value)`;
Python numbers (ints and floats alike) as `ℚ`, which carries every value
the repair/normalize/split logic distinguishes (all it does is compare
with 0, copy, and assign 0 or 1); strings as `String`.
-/

/-- A loosely-typed value in a raw/normalized record: Python payload
values are numbers or strings. -/
inductive Value where
  | num (q : ℚ)
  | str (s : String)
deriving DecidableEq, Repr

/-- A record (Python dict) as an association list from field name to value. -/
abbrev Record := List (String × Value)

namespace Record

/-- Dict lookup: first binding of key `k`, if any. -/
def getv (r : Record) (k : String) : Option Value :=
  (r.find? (fun p => p.1 = k)).map Prod.snd

/-- Numeric read of field `k` (the Python code reads these fields as
numbers; `0` is returned on the out-of-domain cases the theorems'
hypotheses exclude). -/
def getNum (r : Record) (k : String) : ℚ :=
  match r.getv k with
  | some (.num q) => q
  | _ => 0

/-- Dict assignment to an existing key: `payload[k] = v` replaces the
value stored under `k`, leaving all other bindings untouched.  (The
repair block only assigns keys the payload already contains.) -/
def setv (r : Record) (k : String) (v : Value) : Record :=
  r.map (fun p => if p.1 = k then (p.1, v) else p)

theorem getv_cons (p : String × Value) (tl : Record) (k : String) :
    getv (p :: tl) k = if p.1 = k then some p.2 else getv tl k := by
  simp only [getv, List.find?_cons]
  by_cases h : p.1 = k <;> simp [h]

theorem setv_cons (p : String × Value) (tl : Record) (k : String) (v : Value) :
    setv (p :: tl) k v = (p.1, if p.1 = k then v else p.2) :: setv tl k v := by
  simp only [setv, List.map_cons]
  by_cases h : p.1 = k <;> simp [h]

theorem setv_keys (r : Record) (k : String) (v : Value) :
    (r.setv k v).map Prod.fst = r.map Prod.fst := by
  induction r with
  | nil => rfl
  | cons hd tl ih => simp [setv_cons, ih]

theorem getv_setv_ne (r : Record) (k k' : String) (v : Value) (h : k' ≠ k) :
    (r.setv k v).getv k' = r.getv k' := by
  induction r with
  | nil => rfl
  | cons hd tl ih =>
    rw [setv_cons, getv_cons, getv_cons, ih]
    by_cases hk' : hd.1 = k'
    · have hk : ¬ hd.1 = k := fun hh => h (hk'.symm.trans hh)
      simp [hk', hk, h]
    · simp [hk']

theorem getv_setv_self (r : Record) (k : String) (v w : Value)
    (h : r.getv k = some w) : (r.setv k v).getv k = some v := by
  induction r with
  | nil => simp [getv] at h
  | cons hd tl ih =>
    rw [getv_cons] at h
    rw [setv_cons, getv_cons]
    by_cases hk : hd.1 = k
    · simp [hk]
    · simp only [hk, if_false] at h ⊢
      exact ih h

theorem getNum_setv_ne (r : Record) (k k' : String) (v : Value) (h : k' ≠ k) :
    (r.setv k v).getNum k' = r.getNum k' := by
  simp [getNum, getv_setv_ne r k k' v h]

theorem getNum_setv_self (r : Record) (k : String) (q w : ℚ)
    (h : r.getv k = some (.num w)) : (r.setv k (.num q)).getNum k = q := by
  simp [getNum, getv_setv_self r k (.num q) (.num w) h]

end Record

/-! ## `src/inference.py`, `_prep` (RecordNormalizer)

```python
def _prep(payload: dict) -> pd.DataFrame:
    df = pd.DataFrame([payload])
    for c in FEATURES:
        if c not in df.columns:
            df[c] = 0
    return df[FEATURES]
```

The single-row frame starts with the payload's own columns, each contract
column missing from it is assigned `0`, and the final projection
`df[FEATURES]` keeps exactly the contract columns in contract order.  The
resulting row is therefore the record binding each contract column to the
payload's value when present and to `0` otherwise. -/

/-- Embeds `_prep`: the normalized single-row frame, as a record in
contract column order. -/
def prep (FEATURES : List String) (payload : Record) : Record :=
  FEATURES.map (fun c => (c, (payload.getv c).getD (.num 0)))

theorem prep_keys (FEATURES : List String) (payload : Record) :
    (prep FEATURES payload).map Prod.fst = FEATURES := by
  simp [prep, Function.comp_def]

theorem getv_prep_mem (FEATURES : List String) (payload : Record)
    (c : String) (hc : c ∈ FEATURES) :
    (prep FEATURES payload).getv c = some ((payload.getv c).getD (.num 0)) := by
  induction FEATURES with
  | nil => simp at hc
  | cons hd tl ih =>
    simp only [prep, List.map_cons, Record.getv, List.find?_cons]
    by_cases h : hd = c
    · simp [h]
    · have hmem : c ∈ tl := by
        rcases List.mem_cons.mp hc with h' | h'
        · exact absurd h'.symm h
        · exact h'
      simp only [h, decide_False]
      simpa [Record.getv, prep] using ih hmem

theorem getv_prep_not_mem (FEATURES : List String) (payload : Record)
    (c : String) (hc : c ∉ FEATURES) :
    (prep FEATURES payload).getv c = none := by
  induction FEATURES with
  | nil => rfl
  | cons hd tl ih =>
    have hne : hd ≠ c := fun h => hc (by simp [h])
    have htl : c ∉ tl := fun h => hc (List.mem_cons_of_mem _ h)
    simp only [prep, List.map_cons, Record.getv, List.find?_cons, hne, decide_False]
    simpa [Record.getv, prep] using ih htl

/-! ## `src/app.py`, lines 78-101: the consistency auto-fix block

```python
fixes = []
if payload["sessions_7d"] > 0 and payload["active_days_7d"] == 0:
    payload["active_days_7d"] = 1
    fixes.append("active_days_7d set to 1 because sessions_7d > 0")
if payload["active_days_7d"] > 0 and payload["sessions_7d"] == 0:
    payload["sessions_7d"] = payload["active_days_7d"]
    fixes.append("sessions_7d set to active_days_7d because active_days_7d > 0")
if payload["sessions_7d"] == 0:
    if payload["avg_turns_per_session_7d"] != 0.0:
        payload["avg_turns_per_session_7d"] = 0.0
        fixes.append("avg_turns_per_session_7d set to 0 because sessions_7d = 0")
    if payload["tokens_per_session_7d"] != 0.0:
        payload["tokens_per_session_7d"] = 0.0
        fixes.append("tokens_per_session_7d set to 0 because sessions_7d = 0")
    if payload["model_switch_rate_7d"] != 0.0:
        payload["model_switch_rate_7d"] = 0.0
        fixes.append("model_switch_rate_7d set to 0 because sessions_7d = 0")
```
-/

/-- Rule 1: a user with sessions but zero active days gets one active day. -/
def repairRule1 (pf : Record × List String) : Record × List String :=
  let (p, fixes) := pf
  if p.getNum "sessions_7d" > 0 ∧ p.getNum "active_days_7d" = 0 then
    (p.setv "active_days_7d" (.num 1),
     fixes ++ ["active_days_7d set to 1 because sessions_7d > 0"])
  else (p, fixes)

/-- Rule 2: a user with active days but zero sessions gets
`sessions_7d = active_days_7d`. -/
def repairRule2 (pf : Record × List String) : Record × List String :=
  let (p, fixes) := pf
  if p.getNum "active_days_7d" > 0 ∧ p.getNum "sessions_7d" = 0 then
    (p.setv "sessions_7d" (.num (p.getNum "active_days_7d")),
     fixes ++ ["sessions_7d set to active_days_7d because active_days_7d > 0"])
  else (p, fixes)

/-- One inner conditional of rule 3: zero the metric `k` when it is
nonzero, recording the change in the audit list. -/
def zeroStep (k : String) (pf : Record × List String) : Record × List String :=
  let (p, fixes) := pf
  if p.getNum k ≠ 0 then
    (p.setv k (.num 0), fixes ++ [k ++ " set to 0 because sessions_7d = 0"])
  else (p, fixes)

/-- Rule 3: if there are still no sessions, the three per-session metrics
are zeroed (each sub-rule fires only when the value is nonzero, so an
audit line is appended only on an actual change). -/
def repairRule3 (pf : Record × List String) : Record × List String :=
  let (p, fixes) := pf
  if p.getNum "sessions_7d" = 0 then
    zeroStep "model_switch_rate_7d"
      (zeroStep "tokens_per_session_7d"
        (zeroStep "avg_turns_per_session_7d" (p, fixes)))
  else (p, fixes)

/-- The whole auto-fix block: rules 1, 2, 3 in program order, starting
from an empty audit list.  Returns the repaired payload and the list of
fix descriptions. -/
def repair (p : Record) : Record × List String :=
  repairRule3 (repairRule2 (repairRule1 (p, [])))

/-- The five field names the auto-fix block reads or writes. -/
def repairFields : List String :=
  ["sessions_7d", "active_days_7d", "avg_turns_per_session_7d",
   "tokens_per_session_7d", "model_switch_rate_7d"]

namespace Record

/-- Field `k` is present with a numeric value. -/
def numAt (p : Record) (k : String) : Prop :=
  ∃ q : ℚ, p.getv k = some (.num q)

theorem getNum_of_getv (p : Record) (k : String) (q : ℚ)
    (h : p.getv k = some (.num q)) : p.getNum k = q := by
  simp [getNum, h]

theorem numAt_getv_getNum (p : Record) (k : String) (h : p.numAt k) :
    p.getv k = some (.num (p.getNum k)) := by
  obtain ⟨q, hq⟩ := h
  rw [hq, getNum_of_getv p k q hq]

theorem numAt_setv_num (p : Record) (k k' : String) (q : ℚ)
    (h : p.numAt k') : (p.setv k (.num q)).numAt k' := by
  by_cases hk : k' = k
  · obtain ⟨w, hw⟩ := h
    subst hk
    exact ⟨q, getv_setv_self p k' (.num q) (.num w) hw⟩
  · obtain ⟨w, hw⟩ := h
    exact ⟨w, by rw [getv_setv_ne p k k' (.num q) hk, hw]⟩

theorem getNum_setv_self_of_numAt (p : Record) (k : String) (q : ℚ)
    (h : p.numAt k) : (p.setv k (.num q)).getNum k = q := by
  obtain ⟨w, hw⟩ := h
  exact getNum_setv_self p k q w hw

end Record

theorem zeroStep_getNum_self (k : String) (pf : Record × List String)
    (h : pf.1.numAt k) : (zeroStep k pf).1.getNum k = 0 := by
  obtain ⟨p, f⟩ := pf
  unfold zeroStep
  dsimp only
  by_cases hz : p.getNum k ≠ 0
  · rw [if_pos hz]
    exact Record.getNum_setv_self_of_numAt p k 0 h
  · rw [if_neg hz]
    exact not_not.mp hz

theorem zeroStep_getNum_ne (k k' : String) (pf : Record × List String)
    (h : k' ≠ k) : (zeroStep k pf).1.getNum k' = pf.1.getNum k' := by
  obtain ⟨p, f⟩ := pf
  unfold zeroStep
  dsimp only
  by_cases hz : p.getNum k ≠ 0
  · rw [if_pos hz]
    exact Record.getNum_setv_ne p k k' (.num 0) h
  · rw [if_neg hz]

theorem zeroStep_numAt (k k' : String) (pf : Record × List String)
    (h : pf.1.numAt k') : (zeroStep k pf).1.numAt k' := by
  obtain ⟨p, f⟩ := pf
  unfold zeroStep
  dsimp only
  by_cases hz : p.getNum k ≠ 0
  · rw [if_pos hz]
    exact Record.numAt_setv_num p k k' 0 h
  · rw [if_neg hz]
    exact h

theorem zeroStep_keys (k : String) (pf : Record × List String) :
    (zeroStep k pf).1.map Prod.fst = pf.1.map Prod.fst := by
  obtain ⟨p, f⟩ := pf
  unfold zeroStep
  dsimp only
  by_cases hz : p.getNum k ≠ 0
  · rw [if_pos hz]
    exact Record.setv_keys p k (.num 0)
  · rw [if_neg hz]

theorem zeroStep_getv_ne (k k' : String) (pf : Record × List String)
    (h : k' ≠ k) : (zeroStep k pf).1.getv k' = pf.1.getv k' := by
  obtain ⟨p, f⟩ := pf
  unfold zeroStep
  dsimp only
  by_cases hz : p.getNum k ≠ 0
  · rw [if_pos hz]
    exact Record.getv_setv_ne p k k' (.num 0) h
  · rw [if_neg hz]

/-- When none of the three rule conditions holds, the auto-fix block
changes nothing and records no fixes. -/
theorem repair_eq_self (p : Record)
    (c1 : ¬ (p.getNum "sessions_7d" > 0 ∧ p.getNum "active_days_7d" = 0))
    (c2 : ¬ (p.getNum "active_days_7d" > 0 ∧ p.getNum "sessions_7d" = 0))
    (c3 : p.getNum "sessions_7d" = 0 →
      p.getNum "avg_turns_per_session_7d" = 0 ∧
      p.getNum "tokens_per_session_7d" = 0 ∧
      p.getNum "model_switch_rate_7d" = 0) :
    repair p = (p, []) := by
  have e1 : repairRule1 (p, []) = (p, []) := by
    unfold repairRule1; dsimp only; rw [if_neg c1]
  have e2 : repairRule2 (p, []) = (p, []) := by
    unfold repairRule2; dsimp only; rw [if_neg c2]
  unfold repair
  rw [e1, e2]
  unfold repairRule3
  dsimp only
  by_cases hz : p.getNum "sessions_7d" = 0
  · obtain ⟨z1, z2, z3⟩ := c3 hz
    rw [if_pos hz]
    have w1 : zeroStep "avg_turns_per_session_7d" (p, ([] : List String)) = (p, []) := by
      unfold zeroStep; dsimp only; rw [if_neg (fun h => h z1)]
    have w2 : zeroStep "tokens_per_session_7d" (p, ([] : List String)) = (p, []) := by
      unfold zeroStep; dsimp only; rw [if_neg (fun h => h z2)]
    have w3 : zeroStep "model_switch_rate_7d" (p, ([] : List String)) = (p, []) := by
      unfold zeroStep; dsimp only; rw [if_neg (fun h => h z3)]
    rw [w1, w2, w3]
  · rw [if_neg hz]

/-- After the auto-fix block, either sessions and active days are both
positive, or sessions, active days and all three per-session metrics are
all zero.  Requires the five fields to be present with numeric values and
the two count fields to be nonnegative (as the UI guarantees via
`min_value=0`). -/
theorem repair_out_spec (p : Record) (s a : ℚ)
    (hs : p.getv "sessions_7d" = some (.num s))
    (ha : p.getv "active_days_7d" = some (.num a))
    (h1 : p.numAt "avg_turns_per_session_7d")
    (h2 : p.numAt "tokens_per_session_7d")
    (h3 : p.numAt "model_switch_rate_7d")
    (hs0 : 0 ≤ s) (ha0 : 0 ≤ a) :
    (0 < (repair p).1.getNum "sessions_7d" ∧
     0 < (repair p).1.getNum "active_days_7d") ∨
    ((repair p).1.getNum "sessions_7d" = 0 ∧
     (repair p).1.getNum "active_days_7d" = 0 ∧
     (repair p).1.getNum "avg_turns_per_session_7d" = 0 ∧
     (repair p).1.getNum "tokens_per_session_7d" = 0 ∧
     (repair p).1.getNum "model_switch_rate_7d" = 0) := by
  have hsv : p.getNum "sessions_7d" = s := Record.getNum_of_getv p _ s hs
  have hav : p.getNum "active_days_7d" = a := Record.getNum_of_getv p _ a ha
  rcases hs0.lt_or_eq with hsp | hsz
  · -- 0 < s
    rcases ha0.lt_or_eq with hap | haz
    · -- 0 < a : no rule fires
      have e : repair p = (p, []) := by
        refine repair_eq_self p ?_ ?_ ?_
        · intro h
          rw [hav] at h
          exact absurd h.2 (ne_of_gt hap)
        · intro h
          rw [hsv] at h
          exact absurd h.2 (ne_of_gt hsp)
        · intro h
          rw [hsv] at h
          exact absurd h (ne_of_gt hsp)
      left
      rw [e]
      exact ⟨by rw [hsv]; exact hsp, by rw [hav]; exact hap⟩
    · -- a = 0 : rule 1 fires
      have e1 : repairRule1 (p, []) =
          (p.setv "active_days_7d" (.num 1),
           ["active_days_7d set to 1 because sessions_7d > 0"]) := by
        unfold repairRule1; dsimp only
        rw [if_pos ⟨by rw [hsv]; exact hsp, by rw [hav]; exact haz.symm⟩]
        rfl
      have hp1s : (p.setv "active_days_7d" (.num 1)).getNum "sessions_7d" = s := by
        rw [Record.getNum_setv_ne p _ _ _ (by decide)]
        exact hsv
      have hp1a : (p.setv "active_days_7d" (.num 1)).getNum "active_days_7d" = 1 :=
        Record.getNum_setv_self p _ 1 a ha
      have e2 : repairRule2 (repairRule1 (p, [])) = repairRule1 (p, []) := by
        rw [e1]
        unfold repairRule2; dsimp only
        rw [if_neg (by
          intro h
          rw [hp1s] at h
          exact absurd h.2 (ne_of_gt hsp))]
      have e3 : repairRule3 (repairRule1 (p, [])) = repairRule1 (p, []) := by
        rw [e1]
        unfold repairRule3; dsimp only
        rw [if_neg (by rw [hp1s]; exact ne_of_gt hsp)]
      have e : repair p = repairRule1 (p, []) := by
        unfold repair
        rw [e2, e3]
      left
      rw [e, e1]
      exact ⟨by rw [hp1s]; exact hsp, by rw [hp1a]; norm_num⟩
  · -- s = 0
    have e1 : repairRule1 (p, []) = (p, []) := by
      unfold repairRule1; dsimp only
      rw [if_neg (by
        intro h
        rw [hsv, ← hsz] at h
        exact lt_irrefl 0 h.1)]
    rcases ha0.lt_or_eq with hap | haz
    · -- 0 < a : rule 2 fires
      have e2 : repairRule2 (p, []) =
          (p.setv "sessions_7d" (.num (p.getNum "active_days_7d")),
           ["sessions_7d set to active_days_7d because active_days_7d > 0"]) := by
        unfold repairRule2; dsimp only
        rw [if_pos ⟨by rw [hav]; exact hap, by rw [hsv]; exact hsz.symm⟩]
        rfl
      rw [hav] at e2
      have hp1s : (p.setv "sessions_7d" (.num a)).getNum "sessions_7d" = a :=
        Record.getNum_setv_self p _ a s hs
      have hp1a : (p.setv "sessions_7d" (.num a)).getNum "active_days_7d" = a := by
        rw [Record.getNum_setv_ne p _ _ _ (by decide)]
        exact hav
      have e3 : repairRule3 (repairRule2 (repairRule1 (p, []))) =
          repairRule2 (repairRule1 (p, [])) := by
        rw [e1, e2]
        unfold repairRule3; dsimp only
        rw [if_neg (by rw [hp1s]; exact ne_of_gt hap)]
      have e : repair p = (p.setv "sessions_7d" (.num a),
          ["sessions_7d set to active_days_7d because active_days_7d > 0"]) := by
        unfold repair
        rw [e3, e1, e2]
      left
      rw [e]
      exact ⟨by rw [hp1s]; exact hap, by rw [hp1a]; exact hap⟩
    · -- a = 0 : rule 3 zeroes the metrics
      have e2 : repairRule2 (p, []) = (p, []) := by
        unfold repairRule2; dsimp only
        rw [if_neg (by
          intro h
          rw [hav, ← haz] at h
          exact lt_irrefl 0 h.1)]
      have e : repair p =
          zeroStep "model_switch_rate_7d"
            (zeroStep "tokens_per_session_7d"
              (zeroStep "avg_turns_per_session_7d" (p, []))) := by
        unfold repair
        rw [e1, e2]
        unfold repairRule3; dsimp only
        rw [if_pos (by rw [hsv]; exact hsz.symm)]
      right
      rw [e]
      refine ⟨?_, ?_, ?_, ?_, ?_⟩
      · rw [zeroStep_getNum_ne _ _ _ (by decide), zeroStep_getNum_ne _ _ _ (by decide),
            zeroStep_getNum_ne _ _ _ (by decide), hsv]
        exact hsz.symm
      · rw [zeroStep_getNum_ne _ _ _ (by decide), zeroStep_getNum_ne _ _ _ (by decide),
            zeroStep_getNum_ne _ _ _ (by decide), hav]
        exact haz.symm
      · rw [zeroStep_getNum_ne _ _ _ (by decide), zeroStep_getNum_ne _ _ _ (by decide)]
        exact zeroStep_getNum_self _ _ h1
      · rw [zeroStep_getNum_ne _ _ _ (by decide)]
        exact zeroStep_getNum_self _ _ (zeroStep_numAt _ _ _ h2)
      · exact zeroStep_getNum_self _ _
          (zeroStep_numAt _ _ _ (zeroStep_numAt _ _ _ h3))

theorem repairRule1_keys (pf : Record × List String) :
    (repairRule1 pf).1.map Prod.fst = pf.1.map Prod.fst := by
  obtain ⟨p, f⟩ := pf
  unfold repairRule1
  dsimp only
  by_cases h : p.getNum "sessions_7d" > 0 ∧ p.getNum "active_days_7d" = 0
  · rw [if_pos h]
    exact Record.setv_keys p _ _
  · rw [if_neg h]

theorem repairRule1_getv_ne (pf : Record × List String) (k : String)
    (h : k ≠ "active_days_7d") :
    (repairRule1 pf).1.getv k = pf.1.getv k := by
  obtain ⟨p, f⟩ := pf
  unfold repairRule1
  dsimp only
  by_cases hc : p.getNum "sessions_7d" > 0 ∧ p.getNum "active_days_7d" = 0
  · rw [if_pos hc]
    exact Record.getv_setv_ne p _ k _ h
  · rw [if_neg hc]

theorem repairRule2_keys (pf : Record × List String) :
    (repairRule2 pf).1.map Prod.fst = pf.1.map Prod.fst := by
  obtain ⟨p, f⟩ := pf
  unfold repairRule2
  dsimp only
  by_cases h : p.getNum "active_days_7d" > 0 ∧ p.getNum "sessions_7d" = 0
  · rw [if_pos h]
    exact Record.setv_keys p _ _
  · rw [if_neg h]

theorem repairRule2_getv_ne (pf : Record × List String) (k : String)
    (h : k ≠ "sessions_7d") :
    (repairRule2 pf).1.getv k = pf.1.getv k := by
  obtain ⟨p, f⟩ := pf
  unfold repairRule2
  dsimp only
  by_cases hc : p.getNum "active_days_7d" > 0 ∧ p.getNum "sessions_7d" = 0
  · rw [if_pos hc]
    exact Record.getv_setv_ne p _ k _ h
  · rw [if_neg hc]

theorem repairRule3_keys (pf : Record × List String) :
    (repairRule3 pf).1.map Prod.fst = pf.1.map Prod.fst := by
  obtain ⟨p, f⟩ := pf
  unfold repairRule3
  dsimp only
  by_cases h : p.getNum "sessions_7d" = 0
  · rw [if_pos h, zeroStep_keys, zeroStep_keys, zeroStep_keys]
  · rw [if_neg h]

theorem repairRule3_getv_ne (pf : Record × List String) (k : String)
    (hA : k ≠ "avg_turns_per_session_7d") (hT : k ≠ "tokens_per_session_7d")
    (hM : k ≠ "model_switch_rate_7d") :
    (repairRule3 pf).1.getv k = pf.1.getv k := by
  obtain ⟨p, f⟩ := pf
  unfold repairRule3
  dsimp only
  by_cases h : p.getNum "sessions_7d" = 0
  · rw [if_pos h, zeroStep_getv_ne _ _ _ hM, zeroStep_getv_ne _ _ _ hT,
        zeroStep_getv_ne _ _ _ hA]
  · rw [if_neg h]

/-- Example serving payload (sessions 0, active days 5, nonzero
per-session metrics, plus an unrelated field). -/
def pEx : Record :=
  [("tokens_per_session_7d", .num 300), ("sessions_7d", .num 0),
   ("active_days_7d", .num 5), ("avg_turns_per_session_7d", .num 8),
   ("model_switch_rate_7d", .num (1/10)), ("error_rate_7d", .num (1/20))]

/-- C2: the auto-fix block is idempotent — for every payload containing
the five consistency fields with numeric values and nonnegative
`sessions_7d` and `active_days_7d`, repairing the record component of
`repair`'s own output returns that record unchanged. -/
theorem repair_idempotent (p : Record) (s a : ℚ)
    (hs : p.getv "sessions_7d" = some (.num s))
    (ha : p.getv "active_days_7d" = some (.num a))
    (h1 : p.numAt "avg_turns_per_session_7d")
    (h2 : p.numAt "tokens_per_session_7d")
    (h3 : p.numAt "model_switch_rate_7d")
    (hs0 : 0 ≤ s) (ha0 : 0 ≤ a) :
    (repair (repair p).1).1 = (repair p).1 := by
  rcases repair_out_spec p s a hs ha h1 h2 h3 hs0 ha0 with
    ⟨hsp, hap⟩ | ⟨z1, z2, z3, z4, z5⟩
  · rw [repair_eq_self (repair p).1
      (fun h => absurd h.2 (ne_of_gt hap))
      (fun h => absurd h.2 (ne_of_gt hsp))
      (fun h => absurd h (ne_of_gt hsp))]
  · rw [repair_eq_self (repair p).1
      (fun h => absurd z1 (ne_of_gt h.1))
      (fun h => absurd z2 (ne_of_gt h.1))
      (fun _ => ⟨z3, z4, z5⟩)]

/-- Witness for C2 at a concrete payload. -/
theorem repair_idempotent_witness :
    (repair (repair pEx).1).1 = (repair pEx).1 :=
  repair_idempotent pEx 0 5 rfl rfl ⟨8, rfl⟩ ⟨300, rfl⟩ ⟨1/10, rfl⟩
    (by norm_num) (by norm_num)

/-- C3: rules fire in order 1, 2, 3 — on a payload with `sessions_7d = 0`
and `active_days_7d = 5`, rule 2 sets `sessions_7d` to 5 before rule 3's
condition is evaluated, so the three per-session metrics are left
untouched. -/
theorem repair_rule_order (p : Record)
    (hs : p.getv "sessions_7d" = some (.num 0))
    (ha : p.getv "active_days_7d" = some (.num 5)) :
    (repair p).1.getv "sessions_7d" = some (.num 5) ∧
    (repair p).1.getv "avg_turns_per_session_7d" =
      p.getv "avg_turns_per_session_7d" ∧
    (repair p).1.getv "tokens_per_session_7d" =
      p.getv "tokens_per_session_7d" ∧
    (repair p).1.getv "model_switch_rate_7d" =
      p.getv "model_switch_rate_7d" := by
  have hsv : p.getNum "sessions_7d" = 0 := Record.getNum_of_getv p _ 0 hs
  have hav : p.getNum "active_days_7d" = 5 := Record.getNum_of_getv p _ 5 ha
  have e1 : repairRule1 (p, []) = (p, []) := by
    unfold repairRule1; dsimp only
    rw [if_neg (by
      intro h
      rw [hsv] at h
      exact lt_irrefl 0 h.1)]
  have e2 : repairRule2 (p, []) =
      (p.setv "sessions_7d" (.num (p.getNum "active_days_7d")),
       ["sessions_7d set to active_days_7d because active_days_7d > 0"]) := by
    unfold repairRule2; dsimp only
    rw [if_pos ⟨by rw [hav]; norm_num, hsv⟩]
    rfl
  rw [hav] at e2
  have hp1s : (p.setv "sessions_7d" (.num 5)).getNum "sessions_7d" = 5 :=
    Record.getNum_setv_self p _ 5 0 hs
  have e3 : repairRule3 (p.setv "sessions_7d" (.num 5),
      ["sessions_7d set to active_days_7d because active_days_7d > 0"]) =
      (p.setv "sessions_7d" (.num 5),
       ["sessions_7d set to active_days_7d because active_days_7d > 0"]) := by
    unfold repairRule3; dsimp only
    rw [if_neg (by rw [hp1s]; norm_num)]
  have e : repair p = (p.setv "sessions_7d" (.num 5),
      ["sessions_7d set to active_days_7d because active_days_7d > 0"]) := by
    unfold repair
    rw [e1, e2, e3]
  rw [e]
  exact ⟨Record.getv_setv_self p _ (.num 5) (.num 0) hs,
    Record.getv_setv_ne p _ _ _ (by decide),
    Record.getv_setv_ne p _ _ _ (by decide),
    Record.getv_setv_ne p _ _ _ (by decide)⟩

/-- Witness for C3 at a concrete payload. -/
theorem repair_rule_order_witness :
    (repair pEx).1.getv "sessions_7d" = some (.num 5) ∧
    (repair pEx).1.getv "avg_turns_per_session_7d" =
      pEx.getv "avg_turns_per_session_7d" ∧
    (repair pEx).1.getv "tokens_per_session_7d" =
      pEx.getv "tokens_per_session_7d" ∧
    (repair pEx).1.getv "model_switch_rate_7d" =
      pEx.getv "model_switch_rate_7d" :=
  repair_rule_order pEx rfl rfl

/-- C9: the repaired record satisfies the consistency invariant — zero
sessions forces zero active days and zero per-session metrics, and
positive sessions forces positive active days. -/
theorem repair_invariant (p : Record) (s a : ℚ)
    (hs : p.getv "sessions_7d" = some (.num s))
    (ha : p.getv "active_days_7d" = some (.num a))
    (h1 : p.numAt "avg_turns_per_session_7d")
    (h2 : p.numAt "tokens_per_session_7d")
    (h3 : p.numAt "model_switch_rate_7d")
    (hs0 : 0 ≤ s) (ha0 : 0 ≤ a) :
    ((repair p).1.getNum "sessions_7d" = 0 →
      (repair p).1.getNum "active_days_7d" = 0 ∧
      (repair p).1.getNum "avg_turns_per_session_7d" = 0 ∧
      (repair p).1.getNum "tokens_per_session_7d" = 0 ∧
      (repair p).1.getNum "model_switch_rate_7d" = 0) ∧
    (0 < (repair p).1.getNum "sessions_7d" →
      0 < (repair p).1.getNum "active_days_7d") := by
  rcases repair_out_spec p s a hs ha h1 h2 h3 hs0 ha0 with
    ⟨hsp, hap⟩ | ⟨z1, z2, z3, z4, z5⟩
  · exact ⟨fun h => absurd h (ne_of_gt hsp), fun _ => hap⟩
  · exact ⟨fun _ => ⟨z2, z3, z4, z5⟩, fun h => absurd z1 (ne_of_gt h)⟩

/-- Witness for C9 at a concrete payload. -/
theorem repair_invariant_witness :
    ((repair pEx).1.getNum "sessions_7d" = 0 →
      (repair pEx).1.getNum "active_days_7d" = 0 ∧
      (repair pEx).1.getNum "avg_turns_per_session_7d" = 0 ∧
      (repair pEx).1.getNum "tokens_per_session_7d" = 0 ∧
      (repair pEx).1.getNum "model_switch_rate_7d" = 0) ∧
    (0 < (repair pEx).1.getNum "sessions_7d" →
      0 < (repair pEx).1.getNum "active_days_7d") :=
  repair_invariant pEx 0 5 rfl rfl ⟨8, rfl⟩ ⟨300, rfl⟩ ⟨1/10, rfl⟩
    (by norm_num) (by norm_num)

/-- C10: the auto-fix block touches at most the five consistency fields —
the key list (hence the key set) is unchanged and every key outside
`repairFields` keeps its original value. -/
theorem repair_frame (p : Record) :
    (repair p).1.map Prod.fst = p.map Prod.fst ∧
    ∀ k, k ∉ repairFields → (repair p).1.getv k = p.getv k := by
  constructor
  · unfold repair
    rw [repairRule3_keys, repairRule2_keys, repairRule1_keys]
  · intro k hk
    simp only [repairFields, List.mem_cons, List.not_mem_nil, or_false,
      not_or] at hk
    obtain ⟨k1, k2, k3, k4, k5⟩ := hk
    unfold repair
    rw [repairRule3_getv_ne _ _ k3 k4 k5, repairRule2_getv_ne _ _ k1,
      repairRule1_getv_ne _ _ k2]

/-- Witness for C10 at a concrete payload and a concrete untouched key. -/
theorem repair_frame_witness :
    (repair pEx).1.map Prod.fst = pEx.map Prod.fst ∧
    (repair pEx).1.getv "error_rate_7d" = pEx.getv "error_rate_7d" :=
  ⟨(repair_frame pEx).1, (repair_frame pEx).2 "error_rate_7d" (by decide)⟩

/-- C1: `_prep` produces a record whose key list is exactly the feature
contract — contract columns missing from the payload are filled with the
default `0`, and payload fields outside the contract are absent from the
output. -/
theorem normalize_contract_exact (FEATURES : List String) (payload : Record) :
    (prep FEATURES payload).map Prod.fst = FEATURES ∧
    (∀ c ∈ FEATURES, payload.getv c = none →
      (prep FEATURES payload).getv c = some (.num 0)) ∧
    (∀ k, k ∉ FEATURES → (prep FEATURES payload).getv k = none) := by
  refine ⟨prep_keys _ _, ?_, ?_⟩
  · intro c hc hnone
    rw [getv_prep_mem _ _ c hc, hnone]
    rfl
  · intro k hk
    exact getv_prep_not_mem _ _ k hk

/-- Witness for C1: a two-column contract, a payload with one known and
one extra field. -/
theorem normalize_contract_exact_witness :
    (prep ["activated_800", "sessions_7d"]
        [("sessions_7d", Value.num 8), ("extra", Value.str "x")]).map Prod.fst =
      ["activated_800", "sessions_7d"] ∧
    (prep ["activated_800", "sessions_7d"]
        [("sessions_7d", Value.num 8), ("extra", Value.str "x")]).getv
      "activated_800" = some (.num 0) ∧
    (prep ["activated_800", "sessions_7d"]
        [("sessions_7d", Value.num 8), ("extra", Value.str "x")]).getv
      "extra" = none :=
  ⟨(normalize_contract_exact _ _).1,
   (normalize_contract_exact _ _).2.1 "activated_800" (by simp) rfl,
   (normalize_contract_exact _ _).2.2 "extra" (by decide)⟩

/-! ## `src/processing.py`, `main` (BatchFeatureBuilder + TimeSplitter)

Embedded stages (lines 101-162):

* required-column validation: `missing = [c for c in required_cols if c
  not in df.columns]`, raising on a nonempty list (the message carries the
  whole list);
* date check: `pd.to_datetime(..., errors="coerce")` turns every
  unparsable `obs_end_date` into NaT — a row's parse result is modelled as
  `Option ℤ` (`none` = unparsable) — and the pipeline raises with the NaT
  count when any row is bad;
* the column transformations of steps 3-6 (label coercion, leakage drop,
  derived features, imputation, one-hot encoding) neither add, remove nor
  reorder rows, so rows flow into the split unchanged;
* time-based split: sort ascending by `obs_end_date`, cut at
  `int(n * 0.70)` and `int(n * 0.85)`, where `0.70` and `0.85` are the
  IEEE binary64 literals and the product is one double multiplication —
  for some `n` (90, 170, 180, ...) `int(n * 0.70)` is one below the
  exact floor `⌊0.7·n⌋`, because the double `0.70` lies slightly below
  7/10 and the product rounds down across the integer. -/

def required_cols : List String :=
  ["user_id", "obs_end_date", "churned_14d", "tokens_per_session_7d",
   "primary_model_7d"]

/-- `[c for c in required_cols if c not in df.columns]`. -/
def missingCols (cols : List String) : List String :=
  required_cols.filter (fun c => !cols.contains c)

/-- The two failure modes of the batch build: the schema error carries
every missing required column, the data-quality error carries the count
of unparsable dates. -/
inductive PipelineError where
  | missingColumns (missing : List String)
  | badDates (count : Nat)
deriving Repr, DecidableEq

/-- One raw input row: the parse result of its `obs_end_date` value
(`none` when `pd.to_datetime` coerces it to NaT) and an identifier
standing for the rest of the row. -/
structure RawRow where
  obs_end_date : Option ℤ
  data : ℕ
deriving Repr, DecidableEq

/-- Round to nearest integer, ties to even. -/
def roundHalfEven (q : ℚ) : ℤ :=
  if q - ⌊q⌋ < 1/2 then ⌊q⌋
  else if 1/2 < q - ⌊q⌋ then ⌊q⌋ + 1
  else if ⌊q⌋ % 2 = 0 then ⌊q⌋ else ⌊q⌋ + 1

theorem rhe_ge_floor (q : ℚ) : ⌊q⌋ ≤ roundHalfEven q := by
  unfold roundHalfEven
  split_ifs <;> omega

theorem rhe_le_floor_add_one (q : ℚ) : roundHalfEven q ≤ ⌊q⌋ + 1 := by
  unfold roundHalfEven
  split_ifs <;> omega

theorem rhe_intCast (k : ℤ) : roundHalfEven (k : ℚ) = k := by
  unfold roundHalfEven
  rw [Int.floor_intCast]
  rw [if_pos (by norm_num)]

theorem rhe_mono {q1 q2 : ℚ} (h : q1 ≤ q2) :
    roundHalfEven q1 ≤ roundHalfEven q2 := by
  have hf : ⌊q1⌋ ≤ ⌊q2⌋ := Int.floor_mono h
  rcases hf.lt_or_eq with hlt | heq
  · calc roundHalfEven q1 ≤ ⌊q1⌋ + 1 := rhe_le_floor_add_one q1
      _ ≤ ⌊q2⌋ := by omega
      _ ≤ roundHalfEven q2 := rhe_ge_floor q2
  · unfold roundHalfEven
    rw [← heq]
    split_ifs <;> first | omega | linarith

/-- Fuel-bounded binary logarithm on `ℕ`. -/
def log2fuel : ℕ → ℕ → ℕ
  | 0, _ => 0
  | fuel + 1, n => if 2 ≤ n then log2fuel fuel (n / 2) + 1 else 0

/-- `⌊log₂ n⌋` for `n ≥ 1`. -/
def natLog2 (n : ℕ) : ℕ := log2fuel n n

theorem log2fuel_spec (fuel : ℕ) : ∀ n, 1 ≤ n → n ≤ fuel →
    2 ^ log2fuel fuel n ≤ n ∧ n < 2 ^ (log2fuel fuel n + 1) := by
  induction fuel with
  | zero => intro n h1 h2; omega
  | succ fuel ih =>
    intro n h1 h2
    simp only [log2fuel]
    by_cases h : 2 ≤ n
    · rw [if_pos h]
      obtain ⟨ha, hb⟩ := ih (n / 2) (by omega) (by omega)
      rw [pow_succ] at hb
      constructor
      · rw [pow_succ]
        omega
      · rw [pow_succ, pow_succ]
        omega
    · rw [if_neg h]
      norm_num
      omega

theorem natLog2_spec (n : ℕ) (h : 1 ≤ n) :
    2 ^ natLog2 n ≤ n ∧ n < 2 ^ (natLog2 n + 1) :=
  log2fuel_spec n n h le_rfl

/-- `⌊log₂ p⌋` for a rational `p ≥ 1/2` (the only range this model
rounds in). -/
def qlog2 (p : ℚ) : ℤ := if 1 ≤ p then (natLog2 ⌊p⌋₊ : ℤ) else -1

theorem qlog2_spec (p : ℚ) (hp : 1/2 ≤ p) :
    (2:ℚ) ^ qlog2 p ≤ p ∧ p < (2:ℚ) ^ (qlog2 p + 1) := by
  unfold qlog2
  by_cases h : 1 ≤ p
  · rw [if_pos h]
    have hn : 1 ≤ ⌊p⌋₊ := Nat.le_floor (by exact_mod_cast h)
    obtain ⟨ha, hb⟩ := natLog2_spec ⌊p⌋₊ hn
    constructor
    · calc (2:ℚ) ^ (natLog2 ⌊p⌋₊ : ℤ) = ((2 ^ natLog2 ⌊p⌋₊ : ℕ) : ℚ) := by
            rw [zpow_natCast]; push_cast; ring
        _ ≤ (⌊p⌋₊ : ℚ) := by exact_mod_cast ha
        _ ≤ p := Nat.floor_le (by linarith)
    · calc p < ⌊p⌋₊ + 1 := Nat.lt_floor_add_one p
        _ ≤ ((2 ^ (natLog2 ⌊p⌋₊ + 1) : ℕ) : ℚ) := by exact_mod_cast hb
        _ = (2:ℚ) ^ ((natLog2 ⌊p⌋₊ : ℤ) + 1) := by
            push_cast
            rw [← zpow_natCast (2:ℚ) (natLog2 ⌊p⌋₊ + 1)]
            push_cast
            ring_nf
  · rw [if_neg h]
    constructor
    · rw [show ((-1:ℤ)) = -(1:ℕ) from rfl]
      rw [zpow_neg, zpow_natCast]
      norm_num
      linarith
    · norm_num
      linarith [not_le.mp h]

theorem qlog2_eq (p : ℚ) (e : ℤ) (hp : 1/2 ≤ p)
    (h1 : (2:ℚ) ^ e ≤ p) (h2 : p < (2:ℚ) ^ (e + 1)) : qlog2 p = e := by
  obtain ⟨a, b⟩ := qlog2_spec p hp
  by_contra hne
  rcases lt_or_gt_of_ne hne with hlt | hgt
  · have : (2:ℚ) ^ (qlog2 p + 1) ≤ (2:ℚ) ^ e :=
      zpow_le_zpow_right₀ (by norm_num) (by omega)
    linarith
  · have : (2:ℚ) ^ (e + 1) ≤ (2:ℚ) ^ (qlog2 p) :=
      zpow_le_zpow_right₀ (by norm_num) (by omega)
    linarith

/-- Round a positive rational to the nearest IEEE binary64 value
(round-to-nearest, ties-to-even), with unbounded exponent range: no
overflow/subnormal handling, faithful on the normal range, which covers
every value this pipeline rounds.  Nonpositive inputs map to 0. -/
def rn (p : ℚ) : ℚ :=
  if p ≤ 0 then 0
  else ((roundHalfEven (p * 2 ^ ((52:ℤ) - qlog2 p)) : ℤ) : ℚ) *
    2 ^ (qlog2 p - 52)

theorem rn_lower (p : ℚ) (hp : 1/2 ≤ p) : (2:ℚ) ^ qlog2 p ≤ rn p := by
  have hpos : 0 < p := by linarith
  unfold rn
  rw [if_neg (not_le.mpr hpos)]
  have hsp := (qlog2_spec p hp).1
  have hm : (2:ℚ) ^ (52:ℤ) ≤ p * 2 ^ ((52:ℤ) - qlog2 p) := by
    calc (2:ℚ) ^ (52:ℤ) = 2 ^ qlog2 p * 2 ^ ((52:ℤ) - qlog2 p) := by
          rw [← zpow_add₀ (two_ne_zero)]
          ring_nf
      _ ≤ p * 2 ^ ((52:ℤ) - qlog2 p) := by
          apply mul_le_mul_of_nonneg_right hsp
          positivity
  have hfl : (2 ^ (52:ℕ) : ℤ) ≤ ⌊p * 2 ^ ((52:ℤ) - qlog2 p)⌋ := by
    rw [Int.le_floor]
    calc ((2 ^ (52:ℕ) : ℤ) : ℚ) = (2:ℚ) ^ (52:ℤ) := by norm_num
      _ ≤ _ := hm
  have hrhe : (2 ^ (52:ℕ) : ℤ) ≤ roundHalfEven (p * 2 ^ ((52:ℤ) - qlog2 p)) :=
    le_trans hfl (rhe_ge_floor _)
  calc (2:ℚ) ^ qlog2 p = (2:ℚ) ^ (52:ℤ) * 2 ^ (qlog2 p - 52) := by
        rw [← zpow_add₀ (two_ne_zero)]
        ring_nf
    _ ≤ ((roundHalfEven (p * 2 ^ ((52:ℤ) - qlog2 p)) : ℤ) : ℚ) *
        2 ^ (qlog2 p - 52) := by
        apply mul_le_mul_of_nonneg_right _ (by positivity)
        calc (2:ℚ) ^ (52:ℤ) = ((2 ^ (52:ℕ) : ℤ) : ℚ) := by norm_num
          _ ≤ _ := by exact_mod_cast hrhe

theorem rn_upper (p : ℚ) (hp : 1/2 ≤ p) : rn p ≤ (2:ℚ) ^ (qlog2 p + 1) := by
  have hpos : 0 < p := by linarith
  unfold rn
  rw [if_neg (not_le.mpr hpos)]
  have hsp := (qlog2_spec p hp).2
  have hm : p * 2 ^ ((52:ℤ) - qlog2 p) < (2:ℚ) ^ (53:ℤ) := by
    calc p * 2 ^ ((52:ℤ) - qlog2 p) < 2 ^ (qlog2 p + 1) * 2 ^ ((52:ℤ) - qlog2 p) := by
          apply mul_lt_mul_of_pos_right hsp
          positivity
      _ = (2:ℚ) ^ (53:ℤ) := by
          rw [← zpow_add₀ (two_ne_zero)]
          ring_nf
  have hfl : ⌊p * 2 ^ ((52:ℤ) - qlog2 p)⌋ < (2 ^ (53:ℕ) : ℤ) := by
    rw [Int.floor_lt]
    calc p * 2 ^ ((52:ℤ) - qlog2 p) < (2:ℚ) ^ (53:ℤ) := hm
      _ = ((2 ^ (53:ℕ) : ℤ) : ℚ) := by norm_num
  have hrhe : roundHalfEven (p * 2 ^ ((52:ℤ) - qlog2 p)) ≤ (2 ^ (53:ℕ) : ℤ) := by
    have := rhe_le_floor_add_one (p * 2 ^ ((52:ℤ) - qlog2 p))
    omega
  calc ((roundHalfEven (p * 2 ^ ((52:ℤ) - qlog2 p)) : ℤ) : ℚ) *
      2 ^ (qlog2 p - 52)
      ≤ ((2 ^ (53:ℕ) : ℤ) : ℚ) * 2 ^ (qlog2 p - 52) := by
        apply mul_le_mul_of_nonneg_right _ (by positivity)
        exact_mod_cast hrhe
    _ = (2:ℚ) ^ (qlog2 p + 1) := by
        have h53 : ((2 ^ (53:ℕ) : ℤ) : ℚ) = (2:ℚ) ^ (53:ℤ) := by norm_num
        rw [h53, ← zpow_add₀ (two_ne_zero)]
        ring_nf

theorem rn_mono (p1 p2 : ℚ) (hp : 1/2 ≤ p1) (h : p1 ≤ p2) :
    rn p1 ≤ rn p2 := by
  have hp2 : 1/2 ≤ p2 := le_trans hp h
  have he : qlog2 p1 ≤ qlog2 p2 := by
    by_contra hc
    push_neg at hc
    have h1 := (qlog2_spec p1 hp).1
    have h2 := (qlog2_spec p2 hp2).2
    have : (2:ℚ) ^ (qlog2 p2 + 1) ≤ (2:ℚ) ^ qlog2 p1 :=
      zpow_le_zpow_right₀ (by norm_num) (by omega)
    linarith
  rcases he.lt_or_eq with hlt | heq
  · calc rn p1 ≤ (2:ℚ) ^ (qlog2 p1 + 1) := rn_upper p1 hp
      _ ≤ (2:ℚ) ^ qlog2 p2 := zpow_le_zpow_right₀ (by norm_num) (by omega)
      _ ≤ rn p2 := rn_lower p2 hp2
  · have hpos1 : 0 < p1 := by linarith
    have hpos2 : 0 < p2 := by linarith
    unfold rn
    rw [if_neg (not_le.mpr hpos1), if_neg (not_le.mpr hpos2), ← heq]
    apply mul_le_mul_of_nonneg_right _ (by positivity)
    have : roundHalfEven (p1 * 2 ^ ((52:ℤ) - qlog2 p1)) ≤
        roundHalfEven (p2 * 2 ^ ((52:ℤ) - qlog2 p1)) := by
      apply rhe_mono
      apply mul_le_mul_of_nonneg_right h
      positivity
    exact_mod_cast this

/-- The IEEE binary64 value of the literal `0.70`
(`0x1.6666666666666p-1`, slightly below 7/10). -/
def float70 : ℚ := 3152519739159347 / 4503599627370496

/-- The IEEE binary64 value of the literal `0.85`
(`0x1.b333333333333p-1`, slightly below 17/20). -/
def float85 : ℚ := 7656119366529843 / 9007199254740992

/-- `int(n * c)` for a positive double constant `c`, as Python computes
it: convert `n` to double, multiply (one rounding), truncate. -/
def pyIntMul (n : ℕ) (c : ℚ) : ℕ := ⌊rn (rn (n : ℚ) * c)⌋₊

theorem rn_eval (p : ℚ) (e m : ℤ) (hp : 1/2 ≤ p)
    (h1 : (2:ℚ) ^ e ≤ p) (h2 : p < (2:ℚ) ^ (e + 1))
    (hm : roundHalfEven (p * 2 ^ ((52:ℤ) - e)) = m) :
    rn p = (m : ℚ) * 2 ^ (e - 52) := by
  have he := qlog2_eq p e hp h1 h2
  unfold rn
  rw [if_neg (not_le.mpr (by linarith)), he, hm]

theorem pyIntMul_70_le_85 (n : ℕ) : pyIntMul n float70 ≤ pyIntMul n float85 := by
  rcases Nat.eq_zero_or_pos n with h0 | hpos
  · subst h0
    have h : rn ((0:ℕ):ℚ) = 0 := by
      unfold rn
      rw [if_pos (by norm_num)]
    simp [pyIntMul, h, rn]
  · have h1 : (1:ℚ) ≤ (n:ℚ) := by exact_mod_cast hpos
    have hrnn : (1:ℚ) ≤ rn (n:ℚ) := by
      have hlow := rn_lower (n:ℚ) (by linarith)
      have he : (0:ℤ) ≤ qlog2 (n:ℚ) := by
        unfold qlog2
        rw [if_pos h1]
        positivity
      calc (1:ℚ) = 2 ^ (0:ℤ) := by norm_num
        _ ≤ 2 ^ qlog2 (n:ℚ) := zpow_le_zpow_right₀ (by norm_num) he
        _ ≤ rn (n:ℚ) := hlow
    apply Nat.floor_mono
    apply rn_mono
    · calc (1:ℚ)/2 ≤ float70 := by norm_num [float70]
        _ ≤ rn (n:ℚ) * float70 :=
          le_mul_of_one_le_left (by norm_num [float70]) hrnn
    · apply mul_le_mul_of_nonneg_left _ (by linarith : (0:ℚ) ≤ rn (n:ℚ))
      norm_num [float70, float85]

/-- The time-based split of `main` (lines 154-162): sort ascending by the
time key, then cut at `int(n * 0.70)` and `int(n * 0.85)`, both computed
in double arithmetic (`pyIntMul`). -/
def timeSplit {α : Type} (time : α → ℤ) (rows : List α) :
    List α × List α × List α :=
  let sorted := rows.mergeSort (fun x y => decide (time x ≤ time y))
  let n := rows.length
  let train_end := pyIntMul n float70
  let val_end := pyIntMul n float85
  (sorted.take train_end, (sorted.drop train_end).take (val_end - train_end),
   sorted.drop val_end)

/-- `main`, from validation to the three split tables (the saved outputs
of step 8 exist only on the `.ok` path). -/
def mainPipeline (cols : List String) (rows : List RawRow) :
    Except PipelineError (List RawRow × List RawRow × List RawRow) :=
  if missingCols cols ≠ [] then .error (.missingColumns (missingCols cols))
  else
    let bad := (rows.filter (fun r => r.obs_end_date = none)).length
    if bad > 0 then .error (.badDates bad)
    else .ok (timeSplit (fun r => r.obs_end_date.getD 0) rows)

/-- C6: a table missing at least one required column fails with the
schema error, and the error carries every missing required column (not
only the first). -/
theorem schema_error_reports_all (cols : List String) (rows : List RawRow)
    (h : ∃ c ∈ required_cols, c ∉ cols) :
    mainPipeline cols rows = .error (.missingColumns (missingCols cols)) ∧
    ∀ c ∈ required_cols, c ∉ cols → c ∈ missingCols cols := by
  have hmem : ∀ c ∈ required_cols, c ∉ cols → c ∈ missingCols cols := by
    intro c hc hnc
    unfold missingCols
    rw [List.mem_filter]
    exact ⟨hc, by simpa using hnc⟩
  have hne : missingCols cols ≠ [] := by
    obtain ⟨c, hc, hnc⟩ := h
    intro hnil
    rw [hnil] at hmem
    exact (List.not_mem_nil c) (hmem c hc hnc)
  constructor
  · unfold mainPipeline
    rw [if_pos hne]
  · exact hmem

/-- Witness for C6: a table missing two required columns; the error names
both. -/
theorem schema_error_reports_all_witness :
    mainPipeline ["user_id", "churned_14d", "primary_model_7d"] [] =
      .error (.missingColumns
        (missingCols ["user_id", "churned_14d", "primary_model_7d"])) ∧
    "obs_end_date" ∈ missingCols ["user_id", "churned_14d", "primary_model_7d"] ∧
    "tokens_per_session_7d" ∈
      missingCols ["user_id", "churned_14d", "primary_model_7d"] :=
  ⟨(schema_error_reports_all _ [] ⟨"obs_end_date", by simp [required_cols],
      by decide⟩).1,
   (schema_error_reports_all _ [] ⟨"obs_end_date", by simp [required_cols],
      by decide⟩).2 "obs_end_date" (by simp [required_cols]) (by decide),
   (schema_error_reports_all _ [] ⟨"obs_end_date", by simp [required_cols],
      by decide⟩).2 "tokens_per_session_7d" (by simp [required_cols])
      (by decide)⟩

/-- C7: with all required columns present, any unparsable `obs_end_date`
aborts the build with the data-quality error carrying the count of bad
rows (so no output tables are produced), and when every date parses that
error is never raised — the build succeeds with the split tables. -/
theorem date_quality_error (cols : List String) (rows : List RawRow)
    (hcols : missingCols cols = []) :
    (0 < (rows.filter (fun r => r.obs_end_date = none)).length →
      mainPipeline cols rows =
        .error (.badDates (rows.filter (fun r => r.obs_end_date = none)).length)) ∧
    ((rows.filter (fun r => r.obs_end_date = none)).length = 0 →
      mainPipeline cols rows =
        .ok (timeSplit (fun r => r.obs_end_date.getD 0) rows)) := by
  constructor
  · intro hbad
    unfold mainPipeline
    rw [if_neg (fun hne => hne hcols)]
    dsimp only
    rw [if_pos hbad]
  · intro hgood
    unfold mainPipeline
    rw [if_neg (fun hne => hne hcols)]
    dsimp only
    rw [if_neg (by rw [hgood]; exact lt_irrefl 0)]

/-- A table with one unparsable date. -/
def rowsBadEx : List RawRow := [⟨none, 0⟩, ⟨some 3, 1⟩]

/-- A table whose dates all parse. -/
def rowsGoodEx : List RawRow := [⟨some 5, 0⟩, ⟨some 3, 1⟩]

/-- Witness for C7: the bad table aborts with the bad-row count, the good
table succeeds. -/
theorem date_quality_error_witness :
    mainPipeline required_cols rowsBadEx =
      .error (.badDates
        (rowsBadEx.filter (fun r => r.obs_end_date = none)).length) ∧
    mainPipeline required_cols rowsGoodEx =
      .ok (timeSplit (fun r => r.obs_end_date.getD 0) rowsGoodEx) :=
  ⟨(date_quality_error required_cols rowsBadEx rfl).1 (by decide),
   (date_quality_error required_cols rowsGoodEx rfl).2 (by decide)⟩

/-- The comparison used to sort by the time column is transitive and
total, so the sorted table is pairwise ordered by time. -/
theorem pairwise_time_mergeSort (rows : List (ℤ × ℕ)) :
    (rows.mergeSort (fun x y => decide (x.1 ≤ y.1))).Pairwise
      (fun x y : ℤ × ℕ => x.1 ≤ y.1) := by
  have h : (rows.mergeSort (fun x y => decide (x.1 ≤ y.1))).Pairwise
      (fun x y : ℤ × ℕ => decide (x.1 ≤ y.1) = true) :=
    List.sorted_mergeSort
      (fun a b c hab hbc => by
        simp only [decide_eq_true_eq] at *
        exact le_trans hab hbc)
      (fun a b => by
        simp only [Bool.or_eq_true, decide_eq_true_eq]
        exact le_total a.1 b.1)
      rows
  exact h.imp (fun hab => by simpa using hab)

theorem rn_ninety : rn ((90:ℕ):ℚ) = 90 := by
  have hc : ((90:ℕ):ℚ) = 90 := by norm_num
  rw [hc]
  have hm : roundHalfEven ((90:ℚ) * 2 ^ ((52:ℤ) - 6)) = 90 * 2 ^ 46 := by
    have harg : (90:ℚ) * 2 ^ ((52:ℤ) - 6) = ((90 * 2 ^ 46 : ℤ) : ℚ) := by
      norm_num
    rw [harg, rhe_intCast]
  have := rn_eval 90 6 (90 * 2 ^ 46) (by norm_num) (by norm_num) (by norm_num) hm
  rw [this]
  norm_num

theorem pyIntMul_ninety : pyIntMul 90 float70 = 62 := by
  unfold pyIntMul
  rw [rn_ninety]
  have hp : (90:ℚ) * float70 = 283726776524341230 / 4503599627370496 := by
    norm_num [float70]
  have hfl : ⌊(283726776524341230 / 4503599627370496 : ℚ) * 2 ^ ((52:ℤ) - 5)⌋ =
      8866461766385663 := by
    rw [Int.floor_eq_iff]
    constructor <;> norm_num
  have hm : roundHalfEven ((283726776524341230 / 4503599627370496 : ℚ) *
      2 ^ ((52:ℤ) - 5)) = 8866461766385663 := by
    unfold roundHalfEven
    rw [hfl, if_pos (by norm_num)]
  have hrn := rn_eval (283726776524341230 / 4503599627370496) 5 8866461766385663
    (by norm_num) (by norm_num) (by norm_num) hm
  rw [hp, hrn]
  rw [Nat.floor_eq_iff (by norm_num)]
  constructor <;> norm_num

/-- Model validation against the interpreter: `int(10 * 0.70) = 7` — the
product `10 * 0.70` rounds up to exactly `7.0` through the ties-to-even
case. -/
theorem pyIntMul_ten : pyIntMul 10 float70 = 7 := by
  have hc : ((10:ℕ):ℚ) = 10 := by norm_num
  have hrn10 : rn ((10:ℕ):ℚ) = 10 := by
    rw [hc]
    have hm : roundHalfEven ((10:ℚ) * 2 ^ ((52:ℤ) - 3)) = 10 * 2 ^ 49 := by
      have harg : (10:ℚ) * 2 ^ ((52:ℤ) - 3) = ((10 * 2 ^ 49 : ℤ) : ℚ) := by
        norm_num
      rw [harg, rhe_intCast]
    have := rn_eval 10 3 (10 * 2 ^ 49) (by norm_num) (by norm_num) (by norm_num) hm
    rw [this]
    norm_num
  unfold pyIntMul
  rw [hrn10]
  have hp : (10:ℚ) * float70 = 31525197391593470 / 4503599627370496 := by
    norm_num [float70]
  have hfl : ⌊(31525197391593470 / 4503599627370496 : ℚ) * 2 ^ ((52:ℤ) - 2)⌋ =
      7881299347898367 := by
    rw [Int.floor_eq_iff]
    constructor <;> norm_num
  have hm : roundHalfEven ((31525197391593470 / 4503599627370496 : ℚ) *
      2 ^ ((52:ℤ) - 2)) = 7881299347898368 := by
    unfold roundHalfEven
    rw [hfl, if_neg (by norm_num), if_neg (by norm_num), if_neg (by norm_num)]
    norm_num
  have hrn := rn_eval (31525197391593470 / 4503599627370496) 2 7881299347898368
    (by norm_num) (by norm_num) (by norm_num) hm
  rw [hp, hrn]
  rw [Nat.floor_eq_iff (by norm_num)]
  constructor <;> norm_num

/-- Model validation against the interpreter: `int(90 * 0.85) = 76` (the
validation cut at the counterexample's table size). -/
theorem pyIntMul_ninety_85 : pyIntMul 90 float85 = 76 := by
  unfold pyIntMul
  rw [rn_ninety]
  have hp : (90:ℚ) * float85 = 689050742987685870 / 9007199254740992 := by
    norm_num [float85]
  have hfl : ⌊(689050742987685870 / 9007199254740992 : ℚ) * 2 ^ ((52:ℤ) - 6)⌋ =
      5383208929591295 := by
    rw [Int.floor_eq_iff]
    constructor <;> norm_num
  have hm : roundHalfEven ((689050742987685870 / 9007199254740992 : ℚ) *
      2 ^ ((52:ℤ) - 6)) = 5383208929591296 := by
    unfold roundHalfEven
    rw [hfl, if_neg (by norm_num), if_pos (by norm_num)]
    norm_num
  have hrn := rn_eval (689050742987685870 / 9007199254740992) 6 5383208929591296
    (by norm_num) (by norm_num) (by norm_num) hm
  rw [hp, hrn]
  rw [Nat.floor_eq_iff (by norm_num)]
  constructor <;> norm_num

/-- Ninety rows with distinct times. -/
def rows90 : List (ℤ × ℕ) := (List.range 90).map (fun i : ℕ => ((i : ℤ), i))

/-- C4 counterexample: on a 90-row table the program's train cut is
`int(90 * 0.70) = 62` — the double product `90 * 0.70` evaluates to
`62.99999999999999` — while the claimed exact floor `⌊90 · 0.70⌋` is 63,
so the train partition is not `rows [0, ⌊n·0.70⌋)`. -/
theorem time_split_floor_counterexample :
    (timeSplit Prod.fst rows90).1.length = 62 ∧
    ⌊(rows90.length : ℚ) * (70 / 100)⌋₊ = 63 ∧
    (timeSplit Prod.fst rows90).1.length ≠ ⌊(rows90.length : ℚ) * (70 / 100)⌋₊ := by
  have hlen : rows90.length = 90 := by simp [rows90]
  have h1 : (timeSplit Prod.fst rows90).1.length = 62 := by
    show ((rows90.mergeSort (fun x y => decide (x.1 ≤ y.1))).take
      (pyIntMul rows90.length float70)).length = 62
    rw [List.length_take, List.length_mergeSort, hlen, pyIntMul_ninety]
    norm_num
  have h2 : ⌊(rows90.length : ℚ) * (70 / 100)⌋₊ = 63 := by
    rw [hlen]
    rw [show ((90:ℕ):ℚ) * (70/100) = ((63:ℕ):ℚ) by push_cast; norm_num]
    exact Nat.floor_natCast 63
  exact ⟨h1, h2, by rw [h1, h2]; norm_num⟩

/-- C4 (amended): the time splitter cuts the time-sorted table at
`train_end = int(n * 0.70)` and `val_end = int(n * 0.85)` computed in
IEEE double arithmetic (for some `n` one below the exact floors) into
train `[0, train_end)`, validation `[train_end, val_end)` and test
`[val_end, n)`; `train_end ≤ val_end`, the three parts concatenate back
to the sorted table (so they are disjoint slices covering every row
exactly once), their lengths sum to `n`, and the time values satisfy
train ≤ validation ≤ test pointwise. -/
theorem time_split_float_spec (rows : List (ℤ × ℕ)) :
    ∃ sorted tr va te : List (ℤ × ℕ),
      sorted = rows.mergeSort (fun x y => decide (x.1 ≤ y.1)) ∧
      timeSplit Prod.fst rows = (tr, va, te) ∧
      tr = sorted.take (pyIntMul rows.length float70) ∧
      va = (sorted.drop (pyIntMul rows.length float70)).take
        (pyIntMul rows.length float85 - pyIntMul rows.length float70) ∧
      te = sorted.drop (pyIntMul rows.length float85) ∧
      pyIntMul rows.length float70 ≤ pyIntMul rows.length float85 ∧
      tr ++ va ++ te = sorted ∧
      sorted.Perm rows ∧
      tr.length + va.length + te.length = rows.length ∧
      (∀ x ∈ tr, ∀ y ∈ va, x.1 ≤ y.1) ∧
      (∀ x ∈ tr, ∀ y ∈ te, x.1 ≤ y.1) ∧
      (∀ x ∈ va, ∀ y ∈ te, x.1 ≤ y.1) := by
  have htv : pyIntMul rows.length float70 ≤ pyIntMul rows.length float85 :=
    pyIntMul_70_le_85 rows.length
  refine ⟨rows.mergeSort (fun x y => decide (x.1 ≤ y.1)),
    (rows.mergeSort (fun x y => decide (x.1 ≤ y.1))).take
      (pyIntMul rows.length float70),
    ((rows.mergeSort (fun x y => decide (x.1 ≤ y.1))).drop
      (pyIntMul rows.length float70)).take
      (pyIntMul rows.length float85 - pyIntMul rows.length float70),
    (rows.mergeSort (fun x y => decide (x.1 ≤ y.1))).drop
      (pyIntMul rows.length float85),
    rfl, rfl, rfl, rfl, rfl, htv,
    ?_, List.mergeSort_perm rows _, ?_, ?_, ?_, ?_⟩
  · -- the three slices concatenate back to the sorted table
    have hdrop :
        ((rows.mergeSort (fun x y => decide (x.1 ≤ y.1))).drop
          (pyIntMul rows.length float70)).drop
          (pyIntMul rows.length float85 - pyIntMul rows.length float70) =
        (rows.mergeSort (fun x y => decide (x.1 ≤ y.1))).drop
          (pyIntMul rows.length float85) := by
      rw [List.drop_drop]
      congr 1
      omega
    rw [List.append_assoc, ← hdrop, List.take_append_drop,
      List.take_append_drop]
  · -- lengths sum to n
    simp only [List.length_take, List.length_drop, List.length_mergeSort]
    omega
  · -- train ≤ validation
    have hpw := pairwise_time_mergeSort rows
    rw [← List.take_append_drop (pyIntMul rows.length float70)
      (rows.mergeSort (fun x y => decide (x.1 ≤ y.1)))] at hpw
    rcases List.pairwise_append.mp hpw with ⟨-, -, hcross⟩
    intro x hx y hy
    exact hcross x hx y (List.mem_of_mem_take hy)
  · -- train ≤ test
    have hpw := pairwise_time_mergeSort rows
    rw [← List.take_append_drop (pyIntMul rows.length float70)
      (rows.mergeSort (fun x y => decide (x.1 ≤ y.1)))] at hpw
    rcases List.pairwise_append.mp hpw with ⟨-, -, hcross⟩
    intro x hx y hy
    have : y ∈ (rows.mergeSort (fun x y => decide (x.1 ≤ y.1))).drop
        (pyIntMul rows.length float70) := by
      have hdrop :
          ((rows.mergeSort (fun x y => decide (x.1 ≤ y.1))).drop
            (pyIntMul rows.length float70)).drop
            (pyIntMul rows.length float85 - pyIntMul rows.length float70) =
          (rows.mergeSort (fun x y => decide (x.1 ≤ y.1))).drop
            (pyIntMul rows.length float85) := by
        rw [List.drop_drop]
        congr 1
        omega
      rw [← hdrop] at hy
      exact List.mem_of_mem_drop hy
    exact hcross x hx y this
  · -- validation ≤ test
    have hpw := pairwise_time_mergeSort rows
    have hdrop :
        ((rows.mergeSort (fun x y => decide (x.1 ≤ y.1))).drop
          (pyIntMul rows.length float70)).drop
          (pyIntMul rows.length float85 - pyIntMul rows.length float70) =
        (rows.mergeSort (fun x y => decide (x.1 ≤ y.1))).drop
          (pyIntMul rows.length float85) := by
      rw [List.drop_drop]
      congr 1
      omega
    have hsub : List.Pairwise (fun x y : ℤ × ℕ => x.1 ≤ y.1)
        ((rows.mergeSort (fun x y => decide (x.1 ≤ y.1))).drop
          (pyIntMul rows.length float70)) :=
      hpw.drop
    rw [← List.take_append_drop
      (pyIntMul rows.length float85 - pyIntMul rows.length float70)
      ((rows.mergeSort (fun x y => decide (x.1 ≤ y.1))).drop
        (pyIntMul rows.length float70))] at hsub
    rcases List.pairwise_append.mp hsub with ⟨-, -, hcross⟩
    intro x hx y hy
    rw [← hdrop] at hy
    exact hcross x hx y hy

/-! ## `src/inference.py`, `predict` (Scorer)

```python
def predict(payload: dict, model_choice: str = "xgb", threshold: float = 0.35) -> dict:
    X = _prep(payload)
    if model_choice.lower() in ["xgb", "xgboost"]:
        prob = float(XGB.predict_proba(X)[0, 1])
    elif model_choice.lower() in ["logreg", "logistic"]:
        prob = float(LOGREG_PIPE.predict_proba(X)[0, 1])
    else:
        raise ValueError("model_choice must be 'xgb' or 'logreg'")
    pred = int(prob >= threshold)
    return {"churn_probability": prob, "churn_prediction": pred, "threshold": float(threshold)}
```

The fitted models are external artifacts; each is a function from the
prepared feature row to a probability. -/

/-- `model_choice.lower()`, as a structural character map (Python's
`str.lower` lowercases each character). -/
def lowerStr (s : String) : String := ⟨s.data.map Char.toLower⟩

/-- The dict returned by `predict` (`churn_prediction` is the 0/1
decision, held as a `Bool`). -/
structure PredictOut where
  churn_probability : ℚ
  churn_prediction : Bool
  threshold : ℚ
deriving Repr, DecidableEq

/-- Embeds `predict`, with the two loaded models passed explicitly. -/
def predict (FEATURES : List String) (xgbModel logregModel : Record → ℚ)
    (payload : Record) (model_choice : String) (threshold : ℚ) :
    Except String PredictOut :=
  let X := prep FEATURES payload
  if lowerStr model_choice = "xgb" ∨ lowerStr model_choice = "xgboost" then
    .ok ⟨xgbModel X, decide (xgbModel X ≥ threshold), threshold⟩
  else if lowerStr model_choice = "logreg" ∨ lowerStr model_choice = "logistic" then
    .ok ⟨logregModel X, decide (logregModel X ≥ threshold), threshold⟩
  else .error "model_choice must be 'xgb' or 'logreg'"

/-- C8: every successful `predict` call decides churn exactly when the
returned probability is at least the caller-supplied threshold, and
echoes that threshold; in particular a model that returns probability
0.40 yields decision `true` at threshold 0.35 and `false` at
threshold 0.50, on any record. -/
theorem predict_threshold_decision (FEATURES : List String)
    (xgbModel logregModel : Record → ℚ) (payload : Record)
    (model_choice : String) (threshold : ℚ) :
    (∀ out, predict FEATURES xgbModel logregModel payload model_choice
        threshold = .ok out →
      out.churn_prediction = decide (out.churn_probability ≥ out.threshold) ∧
      out.threshold = threshold) ∧
    (predict FEATURES (fun _ => 2/5) logregModel payload "xgb" (7/20) =
      .ok ⟨2/5, true, 7/20⟩) ∧
    (predict FEATURES (fun _ => 2/5) logregModel payload "xgb" (1/2) =
      .ok ⟨2/5, false, 1/2⟩) := by
  refine ⟨?_, ?_, ?_⟩
  · intro out h
    unfold predict at h
    by_cases h1 : lowerStr model_choice = "xgb" ∨ lowerStr model_choice = "xgboost"
    · rw [if_pos h1] at h
      cases h
      exact ⟨rfl, rfl⟩
    · rw [if_neg h1] at h
      by_cases h2 : lowerStr model_choice = "logreg" ∨
          lowerStr model_choice = "logistic"
      · rw [if_pos h2] at h
        cases h
        exact ⟨rfl, rfl⟩
      · rw [if_neg h2] at h
        cases h
  · unfold predict
    rw [if_pos (Or.inl (by decide))]
    norm_num
  · unfold predict
    rw [if_pos (Or.inl (by decide))]
    norm_num

/-- Witness for C8: concrete contract, models, payload and thresholds —
probability 0.40 is decided `true` at 0.35 and `false` at 0.50. -/
theorem predict_threshold_decision_witness :
    (predict ["sessions_7d"] (fun _ => 2/5) (fun _ => 0)
        [("sessions_7d", Value.num 10)] "xgb" (7/20) =
      .ok ⟨2/5, true, 7/20⟩) ∧
    (predict ["sessions_7d"] (fun _ => 2/5) (fun _ => 0)
        [("sessions_7d", Value.num 10)] "xgb" (1/2) =
      .ok ⟨2/5, false, 1/2⟩) :=
  ⟨(predict_threshold_decision ["sessions_7d"] (fun _ => 2/5) (fun _ => 0)
      [("sessions_7d", Value.num 10)] "xgb" (7/20)).2.1,
   (predict_threshold_decision ["sessions_7d"] (fun _ => 2/5) (fun _ => 0)
      [("sessions_7d", Value.num 10)] "xgb" (1/2)).2.2⟩

/-- A small table with tied and out-of-order time values. -/
def rows4Ex : List (ℤ × ℕ) := [(5, 0), (1, 1), (3, 2), (1, 3)]

/-- Witness for C4 at a concrete four-row table. -/
theorem time_split_float_spec_witness :
    ∃ sorted tr va te : List (ℤ × ℕ),
      sorted = rows4Ex.mergeSort (fun x y => decide (x.1 ≤ y.1)) ∧
      timeSplit Prod.fst rows4Ex = (tr, va, te) ∧
      tr = sorted.take (pyIntMul rows4Ex.length float70) ∧
      va = (sorted.drop (pyIntMul rows4Ex.length float70)).take
        (pyIntMul rows4Ex.length float85 - pyIntMul rows4Ex.length float70) ∧
      te = sorted.drop (pyIntMul rows4Ex.length float85) ∧
      pyIntMul rows4Ex.length float70 ≤ pyIntMul rows4Ex.length float85 ∧
      tr ++ va ++ te = sorted ∧
      sorted.Perm rows4Ex ∧
      tr.length + va.length + te.length = rows4Ex.length ∧
      (∀ x ∈ tr, ∀ y ∈ va, x.1 ≤ y.1) ∧
      (∀ x ∈ tr, ∀ y ∈ te, x.1 ≤ y.1) ∧
      (∀ x ∈ va, ∀ y ∈ te, x.1 ≤ y.1) :=
  time_split_float_spec rows4Ex
